import Mathlib

/-!
Shallow embedding of the memories-web client logic that the specification
describes: the upload orchestrator of `src/components/UploadModal.tsx`
(file staging, drag reordering, album and single-file submission), the
timeline grouping of `src/components/Timeline.tsx`, the delete flow of the
`DeleteButton` component, and the older upload-modal variant whose
`handleUpload` performs per-file title validation.

JavaScript strings are modelled as Lean `String`s, with the JS string
methods (`startsWith`, `trim`, `split('.')`) re-implemented executably over
`String.data`; byte sizes are `Nat`; the asynchronous backend (object
storage and record store) is modelled by an environment that fixes each
call's outcome, and each run returns the ordered trace of network
operations it attempted together with the error message it surfaced.
-/

namespace MemoriesWeb

/-! ### JS string primitives -/

/-- JS `s.startsWith(pre)`. -/
def strStartsWith (s pre : String) : Bool := pre.data.isPrefixOf s.data

/-- Whitespace stripped by JS `String.prototype.trim`. -/
def isJsSpace (c : Char) : Bool := c = ' ' || c = '\t' || c = '\n' || c = '\r'

/-- JS `s.trim()`: whitespace removed from both ends. -/
def strTrim (s : String) : String :=
  ⟨((s.data.dropWhile isJsSpace).reverse.dropWhile isJsSpace).reverse⟩

/-- Split a character list at every occurrence of `sep` (JS `split` keeps
empty segments, and splitting the empty string yields `[""]`). -/
def splitOnChar (sep : Char) : List Char → List (List Char)
  | [] => [[]]
  | c :: cs =>
    let rest := splitOnChar sep cs
    if c = sep then [] :: rest
    else
      match rest with
      | [] => [[c]]
      | r :: rs => (c :: r) :: rs

/-- JS `s.split('.')`. -/
def strSplitDot (s : String) : List String := (splitOnChar '.' s.data).map String.mk

/-- JS `file.name.split('.')[0]`, the default title given to a staged file. -/
def defaultTitle (name : String) : String := (strSplitDot name).headD ""

/-- JS `file.name.split('.').pop()`, the extension used in generated storage keys. -/
def extOf (name : String) : String := (strSplitDot name).getLastD ""

/-! ### Data model

`RawFile` is the browser `File` (name, byte size, MIME type); `FileWithTitle`
is the staged entry of `UploadModal.tsx` (`{ file, title, id }`). The
inserted record mirrors the `memories` row built by `handleSubmit`. -/

structure RawFile where
  name : String
  size : Nat
  type : String
  deriving Repr, DecidableEq

structure FileWithTitle where
  file : RawFile
  title : String
  id : String
  deriving Repr, DecidableEq

structure AlbumPhoto where
  src : String
  deriving Repr, DecidableEq

/-- Row inserted into the `memories` table by `UploadModal.tsx`. -/
structure MemoryRecord where
  title : String
  type : String
  src : String
  thumbnail : Option String
  date : String
  album_photos : Option (List AlbumPhoto)
  deriving Repr, DecidableEq

/-- Row inserted by the older upload-modal variant (`part_005`), which also
stores `duration`, `created_at` and `tags`. -/
structure MemoryRecordV5 where
  title : String
  type : String
  src : String
  thumbnail : Option String
  duration : Option String
  date : String
  created_at : String
  tags : List String
  deriving Repr, DecidableEq

/-- One network operation attempted against the backend, in order. Record
inserts carry the outcome the environment assigned to the call, so that the
records actually written can be read off the trace. -/
inductive NetOp where
  | upload (key : String)
  | insertRecord (rec : MemoryRecord) (ok : Bool)
  | insertRecordV5 (rec : MemoryRecordV5) (ok : Bool)
  | removeObject (key : String)
  | deleteRecord (id : Nat)
  deriving Repr, DecidableEq

/-- The records successfully written by a trace, in order. -/
def writtenRecords (ops : List NetOp) : List MemoryRecord :=
  ops.filterMap fun op =>
    match op with
    | .insertRecord r true => some r
    | _ => none

/-- The storage keys of the object uploads attempted by a trace, in order. -/
def uploadKeys (ops : List NetOp) : List String :=
  ops.filterMap fun op =>
    match op with
    | .upload k => some k
    | _ => none

/-! ### File staging (`processFiles`) -/

/-- `MAX_TOTAL_SIZE = 15 * 1024 * 1024` from `processFiles`. -/
def MAX_TOTAL_SIZE : Nat := 15 * 1024 * 1024

/-- Aggregate byte size of the staged files (`files.reduce((acc, f) => acc + f.file.size, 0)`). -/
def stagedSize (files : List FileWithTitle) : Nat :=
  files.foldl (fun acc f => acc + f.file.size) 0

/-- Aggregate byte size of a newly selected batch. -/
def selectedSize (selected : List RawFile) : Nat :=
  selected.foldl (fun acc f => acc + f.size) 0

def sizeLimitError : String := "Total file size exceeds 15MB limit. Please remove some files."

/-- `processFiles` from `UploadModal.tsx`: stage the selected files unless the
selected plus already-staged sizes exceed the 15 MiB cap, in which case the
error is set and the staged list is untouched. `mkId` abstracts the
`Date.now()`-plus-random id generator; preview object-URL allocation is not
modelled. The function performs no network operation. Result: (staged list,
error message). -/
def processFiles (files : List FileWithTitle) (selected : List RawFile)
    (mkId : Nat → String) : List FileWithTitle × Option String :=
  let existingTotalSize := stagedSize files
  let newTotalSize := selectedSize selected + existingTotalSize
  if newTotalSize > MAX_TOTAL_SIZE then
    (files, some sizeLimitError)
  else
    let newFiles := (selected.enum).map fun p =>
      { file := p.2, title := defaultTitle p.2.name, id := mkId p.1 }
    (files ++ newFiles, none)

/-! ### Drag reordering (`handleDragEnd` / dnd-kit `arrayMove`) -/

/-- dnd-kit `arrayMove`: remove the element at `i` and re-insert it at `j`
(`newArray.splice(to, 0, newArray.splice(from, 1)[0])`). Out-of-range `i`
leaves the list unchanged (the claims only concern valid positions). -/
def arrayMove (l : List α) (i j : Nat) : List α :=
  match l[i]? with
  | some a => (l.eraseIdx i).insertIdx j a
  | none => l

/-! ### Backend environment for a submission

Each iteration of the upload loops generates a fresh UUID, uploads to object
storage (which may fail, and on success returns a path used to resolve the
public URL), possibly generates and uploads a video thumbnail, and inserts a
record. `perFile i` fixes the outcome of the i-th iteration's calls. -/

structure FileEnv where
  /-- value of `uuidv4()` in this iteration -/
  uuid : String
  /-- `urlData.path` returned by a successful `storage.upload` -/
  path : String
  uploadOk : Bool
  thumbGenOk : Bool
  thumbUploadOk : Bool
  insertOk : Bool
  deriving Repr, DecidableEq

structure Env where
  perFile : Nat → FileEnv
  /-- `storage.getPublicUrl` -/
  publicUrl : String → String
  /-- outcome of the single record insert of an album submission -/
  albumInsertOk : Bool
  /-- `new Date().toISOString()` -/
  now : String

/-- `file.type.startsWith('image/')`. -/
def isImageFile (f : FileWithTitle) : Bool := strStartsWith f.file.type "image/"

def albumTitleError : String := "Please enter album title"
def albumNeedsTwoError : String := "Album needs at least 2 photos"
def genericUploadError : String := "Error uploading files. Please try again."

/-- Storage key generated for iteration `i` of a loop over `f`:
`${uuidv4()}.${file.name.split('.').pop()}`. -/
def genKey (env : Env) (i : Nat) (f : FileWithTitle) : String :=
  (env.perFile i).uuid ++ "." ++ extOf f.file.name

/-- The per-image loop of the album branch of `handleSubmit`: upload each
image in order, remember the first public URL as the cover, and append every
public URL to `album_photos`. Aborts on the first failed upload (the thrown
error is caught by the enclosing handler). -/
def albumUploadLoop (env : Env) (imgs : List FileWithTitle) (i : Nat)
    (cover : String) (photos : List AlbumPhoto) :
    List NetOp × Except Unit (String × List AlbumPhoto) :=
  match imgs with
  | [] => ([], .ok (cover, photos))
  | f :: rest =>
    let e := env.perFile i
    let upOp := NetOp.upload (genKey env i f)
    if e.uploadOk then
      let url := env.publicUrl e.path
      let cover1 := if i = 0 then url else cover
      let next := albumUploadLoop env rest (i + 1) cover1 (photos ++ [⟨url⟩])
      (upOp :: next.1, next.2)
    else
      ([upOp], .error ())

/-- The album branch of `handleSubmit` (after the title check): filter the
staged files to images, require at least two, upload them in staged order,
then insert exactly one record with `type: 'photo'`, `thumbnail: null`,
`src` the cover URL and `album_photos` the ordered URL list. -/
def runAlbum (env : Env) (files : List FileWithTitle) (albumTitle : String) :
    List NetOp × Option String :=
  let imageFiles := files.filter isImageFile
  if imageFiles.length < 2 then
    ([], some albumNeedsTwoError)
  else
    match albumUploadLoop env imageFiles 0 "" [] with
    | (ops, .error _) => (ops, some genericUploadError)
    | (ops, .ok (cover, photos)) =>
      let r : MemoryRecord :=
        { title := albumTitle, type := "photo", src := cover,
          thumbnail := none, date := env.now, album_photos := some photos }
      if env.albumInsertOk then
        (ops ++ [.insertRecord r true], none)
      else
        (ops ++ [.insertRecord r false], some genericUploadError)

/-- The single-file branch of `handleSubmit`: for each staged file in order,
upload it under a generated key; an image is recorded with `type: 'photo'`
and `src` its public URL, anything else takes the video path (local
thumbnail generation, thumbnail upload under `thumbnail_${fileName}`,
record with `type: 'video'`, `src` the raw storage path and `thumbnail` the
thumbnail's public URL); any failure aborts the remaining batch with the
generic error. -/
def singleUploadLoop (env : Env) (files : List FileWithTitle) (i : Nat) :
    List NetOp × Option String :=
  match files with
  | [] => ([], none)
  | f :: rest =>
    let e := env.perFile i
    let filePath := genKey env i f
    let upOp := NetOp.upload filePath
    if e.uploadOk then
      let url := env.publicUrl e.path
      if isImageFile f then
        let r : MemoryRecord :=
          { title := f.title, type := "photo", src := url,
            thumbnail := none, date := env.now, album_photos := none }
        if e.insertOk then
          let next := singleUploadLoop env rest (i + 1)
          (upOp :: NetOp.insertRecord r true :: next.1, next.2)
        else
          ([upOp, NetOp.insertRecord r false], some genericUploadError)
      else
        if e.thumbGenOk then
          let thumbName := "thumbnail_" ++ filePath
          let thOp := NetOp.upload thumbName
          if e.thumbUploadOk then
            let thumbUrl := env.publicUrl thumbName
            let r : MemoryRecord :=
              { title := f.title, type := "video", src := filePath,
                thumbnail := some thumbUrl, date := env.now, album_photos := none }
            if e.insertOk then
              let next := singleUploadLoop env rest (i + 1)
              (upOp :: thOp :: NetOp.insertRecord r true :: next.1, next.2)
            else
              ([upOp, thOp, NetOp.insertRecord r false], some genericUploadError)
          else
            ([upOp, thOp], some genericUploadError)
        else
          ([upOp], some genericUploadError)
    else
      ([upOp], some genericUploadError)

/-- `handleSubmit` of `UploadModal.tsx`: an empty stage returns silently; in
album mode a blank (after `trim`) album title is rejected before anything
else; then the album or single-file branch runs. Result: (ordered network
trace, surfaced error message). -/
def handleSubmit (env : Env) (files : List FileWithTitle)
    (isAlbumMode : Bool) (albumTitle : String) : List NetOp × Option String :=
  if files.isEmpty then ([], none)
  else if isAlbumMode && strTrim albumTitle == "" then ([], some albumTitleError)
  else if isAlbumMode then runAlbum env files albumTitle
  else singleUploadLoop env files 0

/-! ### Timeline grouping (`Timeline.tsx`)

A record's `date` string is only consumed through `new Date(date)
.getFullYear()` and `.getMonth()`, so the embedding carries the parsed
calendar year and the 0-based calendar month directly. -/

structure TMemory where
  id : Nat
  type : String
  title : String
  dateYear : Int
  dateMonth : Nat
  deriving Repr, DecidableEq

structure MonthGroup where
  month : Nat
  memories : List TMemory
  deriving Repr, DecidableEq

structure YearGroup where
  year : Int
  months : List MonthGroup
  deriving Repr, DecidableEq

/-- Add a memory to the month bucket of a year group: the first bucket with
the same month gets it appended, otherwise `{ month, memories: [memory] }`
is pushed at the end (`yearGroup.months.push`). -/
def insertMonth (months : List MonthGroup) (m : TMemory) : List MonthGroup :=
  match months with
  | [] => [⟨m.dateMonth, [m]⟩]
  | g :: rest =>
    if g.month = m.dateMonth then ⟨g.month, g.memories ++ [m]⟩ :: rest
    else g :: insertMonth rest m

/-- Add a memory to the year group found by `groups.find(g => g.year ===
year)`, or push a fresh `{ year, months: [...] }` at the end. -/
def insertYear (groups : List YearGroup) (m : TMemory) : List YearGroup :=
  match groups with
  | [] => [⟨m.dateYear, [⟨m.dateMonth, [m]⟩]⟩]
  | g :: rest =>
    if g.year = m.dateYear then ⟨g.year, insertMonth g.months m⟩ :: rest
    else g :: insertYear rest m

/-- `timelineGroups` of `Timeline.tsx`: the `reduce` that buckets memories
by year then month, followed by `sort((a, b) => b.year - a.year)` on the
year groups and `sort((a, b) => b.month - a.month)` on each month list.
JS `Array.prototype.sort` is a stable comparison sort; it is modelled by
the stable `List.insertionSort` with the corresponding relations. -/
def timelineGroups (ms : List TMemory) : List YearGroup :=
  let groups := ms.foldl insertYear []
  let sorted := List.insertionSort (fun a b => b.year ≤ a.year) groups
  sorted.map fun g => ⟨g.year, List.insertionSort (fun a b => b.month ≤ a.month) g.months⟩

/-! ### Delete flow (`DeleteButton.handleDelete`)

`handleDelete` asks for confirmation, then removes the object from storage
and only afterwards deletes the database record; a thrown storage error is
caught before the record deletion is reached. -/

def deleteFailedAlert : String := "Failed to delete memory. Please try again."

/-- `handleDelete` with the outcome of the two backend calls fixed by
`storageOk` / `dbOk`. Result: (ordered network trace, alert message). -/
def handleDelete (confirmed storageOk dbOk : Bool) (memoryId : Nat)
    (filePath : String) : List NetOp × Option String :=
  if confirmed then
    if storageOk then
      if dbOk then
        ([.removeObject filePath, .deleteRecord memoryId], none)
      else
        ([.removeObject filePath, .deleteRecord memoryId], some deleteFailedAlert)
    else
      ([.removeObject filePath], some deleteFailedAlert)
  else
    ([], none)

/-- Effect of a trace on the record store, keyed by record id: only
`deleteRecord` operations change it here (the delete flow issues no
inserts). -/
def applyOps (store : List Nat) (ops : List NetOp) : List Nat :=
  ops.foldl
    (fun s op =>
      match op with
      | .deleteRecord i => s.filter fun x => x != i
      | _ => s)
    store

/-! ### Older upload-modal variant (`part_005.handleUpload`)

This variant stages `FilePreview` entries whose `type` was computed at
staging time (`'photo'` if the MIME type starts with `image/`, else
`'video'`), validates that every staged title is non-blank before any
network call, and then uploads sequentially. -/

structure FilePreview where
  file : RawFile
  type : String
  title : String
  tags : List String
  deriving Repr, DecidableEq

structure FileEnvV5 where
  /-- `uuidv4()` for the file's storage key -/
  uuid : String
  /-- `uuidv4()` for the thumbnail's storage key -/
  thumbUuid : String
  /-- formatted video duration read from the decoded metadata -/
  duration : String
  uploadOk : Bool
  thumbUploadOk : Bool
  insertOk : Bool
  deriving Repr, DecidableEq

structure EnvV5 where
  perFile : Nat → FileEnvV5
  publicUrl : String → String
  /-- `new Date().toISOString().split('T')[0]` -/
  nowDate : String
  /-- `new Date().toISOString()` -/
  nowIso : String

def selectFilesError : String := "Please select files to upload"
def emptyTitlesError : String := "Please enter titles for all files"

/-- The per-file loop of `part_005.handleUpload` (thumbnail generation,
which in this variant cannot reject, is not a failure point). -/
def uploadLoopV5 (env : EnvV5) (files : List FilePreview) (i : Nat) :
    List NetOp × Option String :=
  match files with
  | [] => ([], none)
  | f :: rest =>
    let e := env.perFile i
    let filePath := e.uuid ++ "." ++ extOf f.file.name
    let upOp := NetOp.upload filePath
    if e.uploadOk then
      let url := env.publicUrl filePath
      if f.type == "photo" then
        let r : MemoryRecordV5 :=
          { title := f.title, type := f.type, src := url, thumbnail := none,
            duration := none, date := env.nowDate, created_at := env.nowIso,
            tags := f.tags }
        if e.insertOk then
          let next := uploadLoopV5 env rest (i + 1)
          (upOp :: NetOp.insertRecordV5 r true :: next.1, next.2)
        else
          ([upOp, NetOp.insertRecordV5 r false], some genericUploadError)
      else
        let thumbName := e.thumbUuid ++ "_thumb.jpg"
        let thOp := NetOp.upload thumbName
        if e.thumbUploadOk then
          let thumbUrl := env.publicUrl thumbName
          let r : MemoryRecordV5 :=
            { title := f.title, type := f.type, src := filePath,
              thumbnail := some thumbUrl, duration := some e.duration,
              date := env.nowDate, created_at := env.nowIso, tags := f.tags }
          if e.insertOk then
            let next := uploadLoopV5 env rest (i + 1)
            (upOp :: thOp :: NetOp.insertRecordV5 r true :: next.1, next.2)
          else
            ([upOp, thOp, NetOp.insertRecordV5 r false], some genericUploadError)
        else
          ([upOp, thOp], some genericUploadError)
    else
      ([upOp], some genericUploadError)

/-- `handleUpload` of the `part_005` upload-modal variant: an empty stage
and a blank (after `trim`) title are both rejected with an explicit error
before any network call. -/
def handleUpload (env : EnvV5) (files : List FilePreview) :
    List NetOp × Option String :=
  if files.isEmpty then ([], some selectFilesError)
  else if files.any (fun f => strTrim f.title == "") then ([], some emptyTitlesError)
  else uploadLoopV5 env files 0

/-! ### Theorems -/

/-- Putting back at position `i` the element that was removed from position
`i` restores the list. -/
lemma insertIdx_eraseIdx_self : ∀ (l : List α) (i : Nat) (h : i < l.length),
    (l.eraseIdx i).insertIdx i l[i] = l
  | _ :: _, 0, _ => rfl
  | a :: l, i + 1, h => by
    simp only [List.eraseIdx_cons_succ, List.insertIdx_succ_cons, List.getElem_cons_succ]
    exact congrArg (a :: ·) (insertIdx_eraseIdx_self l i (by simpa using h))

/-- C1: if the newly selected sizes plus the already-staged sizes exceed
15 MiB, `processFiles` rejects with the message naming the 15 MB limit, the
staged list is unchanged, and (the function being pure staging) no network
operation is performed. -/
theorem processFiles_rejects_oversize (files : List FileWithTitle)
    (selected : List RawFile) (mkId : Nat → String)
    (h : selectedSize selected + stagedSize files > MAX_TOTAL_SIZE) :
    processFiles files selected mkId = (files, some sizeLimitError) ∧
      ∃ pre post : String, sizeLimitError = pre ++ "15MB" ++ post := by
  refine ⟨?_, "Total file size exceeds ", " limit. Please remove some files.", rfl⟩
  unfold processFiles
  simp [h]

theorem processFiles_rejects_oversize_witness :
    selectedSize [⟨"big.jpg", 16 * 1024 * 1024, "image/jpeg"⟩] + stagedSize [] >
      MAX_TOTAL_SIZE ∧
    (processFiles [] [⟨"big.jpg", 16 * 1024 * 1024, "image/jpeg"⟩] (fun _ => "id0") =
        ([], some sizeLimitError) ∧
      ∃ pre post : String, sizeLimitError = pre ++ "15MB" ++ post) :=
  ⟨by decide, processFiles_rejects_oversize [] [⟨"big.jpg", 16 * 1024 * 1024, "image/jpeg"⟩]
    (fun _ => "id0") (by decide)⟩

/-- C4: for valid positions, `arrayMove` keeps the length, places the moved
item at the target position, preserves the relative order of all other items
(removing the moved item from its new position yields the same list as
removing it from its old position), and moving from `i` to `j` and back
restores the original list. -/
theorem arrayMove_spec (l : List α) (i j : Nat) (hi : i < l.length)
    (hj : j < l.length) :
    (arrayMove l i j).length = l.length ∧
    (arrayMove l i j)[j]? = l[i]? ∧
    (arrayMove l i j).eraseIdx j = l.eraseIdx i ∧
    arrayMove (arrayMove l i j) j i = l := by
  have hget : l[i]? = some l[i] := List.getElem?_eq_getElem hi
  have hjle : j ≤ (l.eraseIdx i).length := by
    rw [List.length_eraseIdx_of_lt hi]; omega
  have hmove : arrayMove l i j = (l.eraseIdx i).insertIdx j l[i] := by
    unfold arrayMove; rw [hget]
  have hlen : (arrayMove l i j).length = l.length := by
    rw [hmove, List.length_insertIdx _ _ hjle, List.length_eraseIdx_of_lt hi]; omega
  have hat : (arrayMove l i j)[j]? = some l[i] := by
    rw [hmove]
    rw [List.getElem?_eq_getElem (by rw [List.length_insertIdx _ _ hjle]; omega)]
    rw [List.getElem_insertIdx_self _ _ _ hjle]
  have herase : (arrayMove l i j).eraseIdx j = l.eraseIdx i := by
    rw [hmove, List.eraseIdx_insertIdx]
  have key : ∀ m : List α, m[j]? = some l[i] → m.eraseIdx j = l.eraseIdx i →
      arrayMove m j i = l := by
    intro m h1 h2
    unfold arrayMove
    rw [h1, h2]
    exact insertIdx_eraseIdx_self l i hi
  exact ⟨hlen, by rw [hat, hget], herase, key _ hat herase⟩

theorem arrayMove_spec_witness :
    1 < 4 ∧ 3 < 4 ∧
    ((arrayMove [10, 20, 30, 40] 1 3).length = 4 ∧
      (arrayMove [10, 20, 30, 40] 1 3)[3]? = [10, 20, 30, 40][1]? ∧
      (arrayMove [10, 20, 30, 40] 1 3).eraseIdx 3 = [10, 20, 30, 40].eraseIdx 1 ∧
      arrayMove (arrayMove [10, 20, 30, 40] 1 3) 3 1 = [10, 20, 30, 40]) :=
  ⟨by decide, by decide,
    (by simpa using arrayMove_spec [10, 20, 30, 40] 1 3 (by decide) (by decide))⟩

/-- An all-succeeding backend environment used to exercise concrete runs. -/
def demoEnv : Env :=
  { perFile := fun i =>
      { uuid := "uuid" ++ toString i, path := "path" ++ toString i,
        uploadOk := true, thumbGenOk := true, thumbUploadOk := true,
        insertOk := true },
    publicUrl := fun p => "https://backend.example/storage/" ++ p,
    albumInsertOk := true,
    now := "2026-01-01T00:00:00.000Z" }

/-- C8: in a confirmed delete, the object-storage removal is the first
operation attempted; a record deletion appears in the trace only when the
storage removal succeeded; and when the storage removal fails, the trace is
the lone removal attempt and the record store is left unchanged. -/
theorem handleDelete_object_before_record (storageOk dbOk : Bool)
    (memoryId : Nat) (filePath : String) :
    (handleDelete true storageOk dbOk memoryId filePath).1.head? =
      some (.removeObject filePath) ∧
    (NetOp.deleteRecord memoryId ∈ (handleDelete true storageOk dbOk memoryId filePath).1 →
      storageOk = true) ∧
    (storageOk = false →
      (handleDelete true storageOk dbOk memoryId filePath).1 = [.removeObject filePath] ∧
      ∀ store : List Nat,
        applyOps store (handleDelete true storageOk dbOk memoryId filePath).1 = store) := by
  cases storageOk <;> cases dbOk <;>
    simp [handleDelete, applyOps]

theorem handleDelete_object_before_record_witness :
    (handleDelete true false true 7 "cover.jpg").1 = [.removeObject "cover.jpg"] ∧
    applyOps [5, 7, 9] (handleDelete true false true 7 "cover.jpg").1 = [5, 7, 9] :=
  ⟨((handleDelete_object_before_record false true 7 "cover.jpg").2.2 rfl).1,
    ((handleDelete_object_before_record false true 7 "cover.jpg").2.2 rfl).2 [5, 7, 9]⟩

/-- C6: a non-empty album submission whose title is blank is rejected with
the explicit title message, and one with a non-blank title but fewer than
two staged image files is rejected with the explicit album-size message; in
both cases the network trace is empty. -/
theorem album_validation (env : Env) (files : List FileWithTitle) (t : String)
    (hne : files ≠ []) :
    (strTrim t = "" → handleSubmit env files true t = ([], some albumTitleError)) ∧
    (strTrim t ≠ "" → (files.filter isImageFile).length < 2 →
      handleSubmit env files true t = ([], some albumNeedsTwoError)) := by
  have h0 : files.isEmpty = false := by
    cases files with
    | nil => exact absurd rfl hne
    | cons a l => rfl
  constructor
  · intro ht
    simp [handleSubmit, h0, ht]
  · intro ht h2
    have hbeq : (strTrim t == "") = false := by
      simpa using ht
    simp [handleSubmit, h0, hbeq, runAlbum, h2]

theorem album_validation_witness :
    ([⟨⟨"clip.mp4", 100, "video/mp4"⟩, "clip", "f1"⟩] : List FileWithTitle) ≠ [] ∧
    strTrim "Bali" ≠ "" ∧
    (([⟨⟨"clip.mp4", 100, "video/mp4"⟩, "clip", "f1"⟩] : List FileWithTitle).filter
        isImageFile).length < 2 ∧
    handleSubmit demoEnv [⟨⟨"clip.mp4", 100, "video/mp4"⟩, "clip", "f1"⟩] true "Bali" =
      ([], some albumNeedsTwoError) :=
  ⟨by decide, by decide, by decide,
    (album_validation demoEnv [⟨⟨"clip.mp4", 100, "video/mp4"⟩, "clip", "f1"⟩] "Bali"
      (by decide)).2 (by decide) (by decide)⟩

def demoEnvV5 : EnvV5 :=
  { perFile := fun i =>
      { uuid := "uuid" ++ toString i, thumbUuid := "tuuid" ++ toString i,
        duration := "1:00", uploadOk := true, thumbUploadOk := true,
        insertOk := true },
    publicUrl := fun p => "https://backend.example/storage/" ++ p,
    nowDate := "2026-01-01",
    nowIso := "2026-01-01T00:00:00.000Z" }

/-- C9 (counterexample to the claim as stated): in the active
`UploadModal.tsx`, a single-file submission whose only staged file has a
whitespace-only title is not rejected — `handleSubmit` performs no per-file
title validation, so the file is uploaded and its record written with the
blank title, and no error is surfaced. -/
theorem handleSubmit_blank_title_not_rejected :
    (handleSubmit demoEnv [⟨⟨"pic.jpg", 100, "image/jpeg"⟩, "   ", "f1"⟩] false "").2 =
      none ∧
    (handleSubmit demoEnv [⟨⟨"pic.jpg", 100, "image/jpeg"⟩, "   ", "f1"⟩] false "").1 ≠
      [] := by
  constructor
  · decide
  · decide

/-- C9 (amended): in the `part_005` upload-modal variant, `handleUpload`
rejects a submission in which some staged file's title is blank (after
`trim`) with an explicit validation message and an empty network trace. -/
theorem handleUpload_blank_title_rejected (env : EnvV5) (files : List FilePreview)
    (h : files.any (fun f => strTrim f.title == "") = true) :
    handleUpload env files = ([], some emptyTitlesError) := by
  have h0 : files.isEmpty = false := by
    cases files with
    | nil => simp at h
    | cons a l => rfl
  simp [handleUpload, h0, h]

theorem handleUpload_blank_title_rejected_witness :
    ([⟨⟨"pic.jpg", 100, "image/jpeg"⟩, "photo", "   ", []⟩] :
        List FilePreview).any (fun f => strTrim f.title == "") = true ∧
    handleUpload demoEnvV5 [⟨⟨"pic.jpg", 100, "image/jpeg"⟩, "photo", "   ", []⟩] =
      ([], some emptyTitlesError) :=
  ⟨by decide,
    handleUpload_blank_title_rejected demoEnvV5
      [⟨⟨"pic.jpg", 100, "image/jpeg"⟩, "photo", "   ", []⟩] (by decide)⟩

/-- The `album_photos` entries produced when the images from loop position
`i` on all upload successfully. -/
def albumUrls (env : Env) (imgs : List FileWithTitle) (i : Nat) : List AlbumPhoto :=
  match imgs with
  | [] => []
  | _ :: rest => ⟨env.publicUrl (env.perFile i).path⟩ :: albumUrls env rest (i + 1)

lemma albumUrls_length (env : Env) :
    ∀ (imgs : List FileWithTitle) (i : Nat), (albumUrls env imgs i).length = imgs.length
  | [], _ => rfl
  | _ :: rest, i => by
    simp [albumUrls, albumUrls_length env rest (i + 1)]

lemma writtenRecords_of_uploads (ops : List NetOp)
    (h : ∀ op ∈ ops, ∃ k, op = .upload k) : writtenRecords ops = [] := by
  apply List.filterMap_eq_nil_iff.mpr
  intro op hop
  obtain ⟨k, rfl⟩ := h op hop
  rfl

lemma uploadKeys_length_of_uploads :
    ∀ ops : List NetOp, (∀ op ∈ ops, ∃ k, op = .upload k) →
      (uploadKeys ops).length = ops.length
  | [], _ => rfl
  | op :: rest, h => by
    obtain ⟨k, hk⟩ := h op (List.mem_cons_self op rest)
    subst hk
    have ih := uploadKeys_length_of_uploads rest fun o ho => h o (List.mem_cons_of_mem _ ho)
    simp [uploadKeys, List.filterMap_cons] at ih ⊢
    exact ih

/-- Past position 0 the cover accumulator is never overwritten, and a
successful album loop appends exactly the public URLs of its images, one
upload per image. -/
lemma albumUploadLoop_ok_pos (env : Env) (imgs : List FileWithTitle) :
    ∀ (i : Nat) (cover : String) (photos : List AlbumPhoto) (ops : List NetOp)
      (c : String) (ps : List AlbumPhoto),
      1 ≤ i →
      albumUploadLoop env imgs i cover photos = (ops, .ok (c, ps)) →
      c = cover ∧ ps = photos ++ albumUrls env imgs i ∧
        ops.length = imgs.length ∧ ∀ op ∈ ops, ∃ k, op = NetOp.upload k := by
  induction imgs with
  | nil =>
    intro i cover photos ops c ps hi hloop
    simp only [albumUploadLoop, Prod.mk.injEq, Except.ok.injEq] at hloop
    obtain ⟨h1, h2, h3⟩ := hloop
    subst h1; subst h2; subst h3
    simp [albumUrls]
  | cons f rest ih =>
    intro i cover photos ops c ps hi hloop
    simp only [albumUploadLoop] at hloop
    by_cases hu : (env.perFile i).uploadOk
    · rw [if_pos hu, if_neg (by omega : ¬ i = 0)] at hloop
      rcases hnext : albumUploadLoop env rest (i + 1) cover
          (photos ++ [⟨env.publicUrl (env.perFile i).path⟩]) with ⟨ops2, res2⟩
      rw [hnext] at hloop
      simp only [Prod.mk.injEq] at hloop
      obtain ⟨hops, hres⟩ := hloop
      cases res2 with
      | error e => simp at hres
      | ok pr =>
        rcases pr with ⟨c2, ps2⟩
        simp only [Except.ok.injEq, Prod.mk.injEq] at hres
        obtain ⟨hc2, hps2⟩ := hres
        subst hc2; subst hps2
        obtain ⟨hc, hps, hlen, hall⟩ :=
          ih (i + 1) cover (photos ++ [⟨env.publicUrl (env.perFile i).path⟩]) ops2
            c2 ps2 (by omega) hnext
        refine ⟨hc, ?_, ?_, ?_⟩
        · rw [hps]
          simp [albumUrls]
        · subst hops
          simp [hlen]
        · subst hops
          intro op hop
          rcases List.mem_cons.mp hop with h | h
          · exact ⟨_, h⟩
          · exact hall op h
    · rw [if_neg hu] at hloop
      simp at hloop

/-- A successful album loop started at position 0 produces the first image's
public URL as the cover and the staged-order URL list as the photos. -/
lemma albumUploadLoop_ok_zero (env : Env) (f : FileWithTitle)
    (rest : List FileWithTitle) (ops : List NetOp) (c : String)
    (ps : List AlbumPhoto)
    (hloop : albumUploadLoop env (f :: rest) 0 "" [] = (ops, .ok (c, ps))) :
    c = env.publicUrl (env.perFile 0).path ∧
    ps = albumUrls env (f :: rest) 0 ∧
    ops.length = (f :: rest).length ∧
    ∀ op ∈ ops, ∃ k, op = NetOp.upload k := by
  simp only [albumUploadLoop] at hloop
  by_cases hu : (env.perFile 0).uploadOk
  · rw [if_pos hu] at hloop
    simp only [if_true] at hloop
    rcases hnext : albumUploadLoop env rest 1 (env.publicUrl (env.perFile 0).path)
        ([] ++ [⟨env.publicUrl (env.perFile 0).path⟩]) with ⟨ops2, res2⟩
    rw [hnext] at hloop
    simp only [Prod.mk.injEq] at hloop
    obtain ⟨hops, hres⟩ := hloop
    cases res2 with
    | error e => simp at hres
    | ok pr =>
      rcases pr with ⟨c2, ps2⟩
      simp only [Except.ok.injEq, Prod.mk.injEq] at hres
      obtain ⟨hc2, hps2⟩ := hres
      subst hc2; subst hps2
      obtain ⟨hc, hps, hlen, hall⟩ :=
        albumUploadLoop_ok_pos env rest 1 (env.publicUrl (env.perFile 0).path)
          ([] ++ [⟨env.publicUrl (env.perFile 0).path⟩]) ops2 c2 ps2 (by omega) hnext
      refine ⟨hc, ?_, ?_, ?_⟩
      · rw [hps]
        simp [albumUrls]
      · subst hops
        simp [hlen]
      · subst hops
        intro op hop
        rcases List.mem_cons.mp hop with h | h
        · exact ⟨_, h⟩
        · exact hall op h
  · rw [if_neg hu] at hloop
    simp at hloop

/-- Decomposition of a successful `runAlbum`. -/
lemma runAlbum_success (env : Env) (files : List FileWithTitle) (t : String)
    (hsucc : (runAlbum env files t).2 = none) :
    ∃ ops c ps,
      2 ≤ (files.filter isImageFile).length ∧
      albumUploadLoop env (files.filter isImageFile) 0 "" [] = (ops, .ok (c, ps)) ∧
      env.albumInsertOk = true ∧
      runAlbum env files t =
        (ops ++ [.insertRecord ⟨t, "photo", c, none, env.now, some ps⟩ true], none) := by
  by_cases hlt : (files.filter isImageFile).length < 2
  · simp [runAlbum, hlt] at hsucc
  · rcases hloop : albumUploadLoop env (files.filter isImageFile) 0 "" [] with ⟨ops, res⟩
    cases res with
    | error e =>
      rw [runAlbum, if_neg hlt, hloop] at hsucc
      simp at hsucc
    | ok pr =>
      rcases pr with ⟨c, ps⟩
      by_cases hins : env.albumInsertOk
      · refine ⟨ops, c, ps, by omega, rfl, hins, ?_⟩
        rw [runAlbum, if_neg hlt, hloop]
        simp [hins]
      · rw [runAlbum, if_neg hlt, hloop] at hsucc
        simp [hins] at hsucc

lemma writtenRecords_append (a b : List NetOp) :
    writtenRecords (a ++ b) = writtenRecords a ++ writtenRecords b :=
  List.filterMap_append a b _

lemma uploadKeys_append (a b : List NetOp) :
    uploadKeys (a ++ b) = uploadKeys a ++ uploadKeys b :=
  List.filterMap_append a b _

/-- C2: a successful album submission with a non-empty stage writes exactly
one record, with `type = "photo"`, `thumbnail = null`, `album_photos` of the
same length as the staged image list, and `src` equal to the `src` of the
first `album_photos` entry. -/
theorem album_submission_one_record (env : Env) (files : List FileWithTitle)
    (t : String) (hne : files ≠ [])
    (hsucc : (handleSubmit env files true t).2 = none) :
    ∃ r ps,
      writtenRecords (handleSubmit env files true t).1 = [r] ∧
      r.type = "photo" ∧ r.thumbnail = none ∧
      r.album_photos = some ps ∧
      ps.length = (files.filter isImageFile).length ∧
      ∃ p0, ps.head? = some p0 ∧ r.src = p0.src := by
  have h0 : files.isEmpty = false := by
    cases files with
    | nil => exact absurd rfl hne
    | cons a l => rfl
  cases hbt : (strTrim t == "") with
  | true =>
    rw [show handleSubmit env files true t = ([], some albumTitleError) from by
      simp [handleSubmit, h0, hbt]] at hsucc
    simp at hsucc
  | false =>
    have heq : handleSubmit env files true t = runAlbum env files t := by
      simp [handleSubmit, h0, hbt]
    rw [heq] at hsucc ⊢
    obtain ⟨ops, c, ps, h2, hloop, hins, hrun⟩ := runAlbum_success env files t hsucc
    rw [hrun]
    rcases hfil : files.filter isImageFile with _ | ⟨f, rest⟩
    · rw [hfil] at h2
      simp at h2
    · rw [hfil] at hloop
      obtain ⟨hc, hps, hlen, hall⟩ := albumUploadLoop_ok_zero env f rest ops c ps hloop
      refine ⟨⟨t, "photo", c, none, env.now, some ps⟩, ps,
        ?_, rfl, rfl, rfl, ?_, ⟨env.publicUrl (env.perFile 0).path⟩, ?_, hc⟩
      · rw [writtenRecords_append, writtenRecords_of_uploads ops hall]
        rfl
      · rw [hps, albumUrls_length]
      · rw [hps]
        simp [albumUrls]

def demoAlbumFiles : List FileWithTitle :=
  [⟨⟨"one.jpg", 100, "image/jpeg"⟩, "one", "f1"⟩,
   ⟨⟨"two.png", 200, "image/png"⟩, "two", "f2"⟩]

theorem album_submission_one_record_witness :
    demoAlbumFiles ≠ [] ∧
    (handleSubmit demoEnv demoAlbumFiles true "Bali").2 = none ∧
    ∃ r ps,
      writtenRecords (handleSubmit demoEnv demoAlbumFiles true "Bali").1 = [r] ∧
      r.type = "photo" ∧ r.thumbnail = none ∧
      r.album_photos = some ps ∧
      ps.length = (demoAlbumFiles.filter isImageFile).length ∧
      ∃ p0, ps.head? = some p0 ∧ r.src = p0.src :=
  ⟨by decide, by decide,
    album_submission_one_record demoEnv demoAlbumFiles "Bali" (by decide) (by decide)⟩

def demoMixedFiles : List FileWithTitle :=
  demoAlbumFiles ++ [⟨⟨"clip.mp4", 300, "video/mp4"⟩, "clip", "f3"⟩]

/-- C10: an album submission is entirely determined by the staged image
files — staging extra non-image files changes neither the trace nor the
outcome — and a successful album submission attempts exactly one object
upload per staged image file. -/
theorem album_non_images_excluded (env : Env) (files : List FileWithTitle)
    (t : String) (hne : files.filter isImageFile ≠ []) :
    handleSubmit env files true t = handleSubmit env (files.filter isImageFile) true t ∧
    ((handleSubmit env files true t).2 = none →
      (uploadKeys (handleSubmit env files true t).1).length =
        (files.filter isImageFile).length) := by
  have hne0 : files ≠ [] := by
    intro h
    rw [h] at hne
    simp at hne
  have h0 : files.isEmpty = false := by
    cases files with
    | nil => exact absurd rfl hne0
    | cons a l => rfl
  have h1 : (files.filter isImageFile).isEmpty = false := by
    cases hv : files.filter isImageFile with
    | nil => exact absurd hv hne
    | cons a l => rfl
  have hfilfil : (files.filter isImageFile).filter isImageFile =
      files.filter isImageFile := by
    simp [List.filter_filter]
  have hrunEq : runAlbum env files t = runAlbum env (files.filter isImageFile) t := by
    simp only [runAlbum, hfilfil]
  constructor
  · cases hbt : (strTrim t == "") with
    | true => simp [handleSubmit, h0, h1, hbt]
    | false => simp [handleSubmit, h0, h1, hbt, hrunEq]
  · intro hsucc
    cases hbt : (strTrim t == "") with
    | true =>
      rw [show handleSubmit env files true t = ([], some albumTitleError) from by
        simp [handleSubmit, h0, hbt]] at hsucc
      simp at hsucc
    | false =>
      have heq : handleSubmit env files true t = runAlbum env files t := by
        simp [handleSubmit, h0, hbt]
      rw [heq] at hsucc ⊢
      obtain ⟨ops, c, ps, h2, hloop, hins, hrun⟩ := runAlbum_success env files t hsucc
      rw [hrun]
      rcases hfil : files.filter isImageFile with _ | ⟨f, rest⟩
      · rw [hfil] at h2
        simp at h2
      · rw [hfil] at hloop
        obtain ⟨hc, hps, hlen, hall⟩ := albumUploadLoop_ok_zero env f rest ops c ps hloop
        have h3 : uploadKeys
            [NetOp.insertRecord ⟨t, "photo", c, none, env.now, some ps⟩ true] = [] := rfl
        rw [uploadKeys_append, h3, List.append_nil,
          uploadKeys_length_of_uploads ops hall, hlen]

theorem album_non_images_excluded_witness :
    demoMixedFiles.filter isImageFile ≠ [] ∧
    (handleSubmit demoEnv demoMixedFiles true "Bali" =
      handleSubmit demoEnv (demoMixedFiles.filter isImageFile) true "Bali" ∧
    ((handleSubmit demoEnv demoMixedFiles true "Bali").2 = none →
      (uploadKeys (handleSubmit demoEnv demoMixedFiles true "Bali").1).length =
        (demoMixedFiles.filter isImageFile).length)) :=
  ⟨by decide, album_non_images_excluded demoEnv demoMixedFiles "Bali" (by decide)⟩

/-- The record `handleSubmit` builds for the staged file at loop position
`i` in single-file mode. -/
def recordFor (env : Env) (i : Nat) (f : FileWithTitle) : MemoryRecord :=
  if isImageFile f then
    { title := f.title, type := "photo", src := env.publicUrl (env.perFile i).path,
      thumbnail := none, date := env.now, album_photos := none }
  else
    { title := f.title, type := "video", src := genKey env i f,
      thumbnail := some (env.publicUrl ("thumbnail_" ++ genKey env i f)),
      date := env.now, album_photos := none }

/-- The records written for a fully successful single-file batch starting at
loop position `i`. -/
def recordsFor (env : Env) (files : List FileWithTitle) (i : Nat) :
    List MemoryRecord :=
  match files with
  | [] => []
  | f :: rest => recordFor env i f :: recordsFor env rest (i + 1)

lemma writtenRecords_upload (k : String) (l : List NetOp) :
    writtenRecords (NetOp.upload k :: l) = writtenRecords l := rfl

lemma writtenRecords_insert_true (r : MemoryRecord) (l : List NetOp) :
    writtenRecords (NetOp.insertRecord r true :: l) = r :: writtenRecords l := rfl

lemma writtenRecords_insert_false (r : MemoryRecord) (l : List NetOp) :
    writtenRecords (NetOp.insertRecord r false :: l) = writtenRecords l := rfl

/-- A single-file batch that surfaces no error writes exactly the expected
record, in order, for every staged file. -/
lemma singleUploadLoop_success (env : Env) (files : List FileWithTitle) :
    ∀ i : Nat, (singleUploadLoop env files i).2 = none →
      writtenRecords (singleUploadLoop env files i).1 = recordsFor env files i := by
  induction files with
  | nil => intro i h; rfl
  | cons f rest ih =>
    intro i h
    simp only [singleUploadLoop] at h ⊢
    by_cases hu : (env.perFile i).uploadOk
    · simp only [if_pos hu] at h ⊢
      by_cases himg : isImageFile f
      · simp only [if_pos himg] at h ⊢
        by_cases hins : (env.perFile i).insertOk
        · simp only [if_pos hins] at h ⊢
          rw [writtenRecords_upload, writtenRecords_insert_true]
          simp only [recordsFor, recordFor, if_pos himg]
          exact congrArg _ (ih (i + 1) h)
        · simp only [if_neg hins] at h
          exact Option.noConfusion h
      · simp only [if_neg himg] at h ⊢
        by_cases htg : (env.perFile i).thumbGenOk
        · simp only [if_pos htg] at h ⊢
          by_cases htu : (env.perFile i).thumbUploadOk
          · simp only [if_pos htu] at h ⊢
            by_cases hins : (env.perFile i).insertOk
            · simp only [if_pos hins] at h ⊢
              rw [writtenRecords_upload, writtenRecords_upload,
                writtenRecords_insert_true]
              simp only [recordsFor, recordFor, if_neg himg]
              exact congrArg _ (ih (i + 1) h)
            · simp only [if_neg hins] at h
              exact Option.noConfusion h
          · simp only [if_neg htu] at h
            exact Option.noConfusion h
        · simp only [if_neg htg] at h
          exact Option.noConfusion h
    · simp only [if_neg hu] at h
      exact Option.noConfusion h

lemma recordsFor_getElem (env : Env) (files : List FileWithTitle) :
    ∀ i k : Nat,
      (recordsFor env files i)[k]? = Option.map (recordFor env (i + k)) files[k]? := by
  induction files with
  | nil => intro i k; simp [recordsFor]
  | cons f rest ih =>
    intro i k
    cases k with
    | zero => simp [recordsFor]
    | succ k =>
      rw [show i + (k + 1) = (i + 1) + k from by omega]
      simpa [recordsFor] using ih (i + 1) k

lemma isPrefixOf_head_ne {a b : Char} {as bs l : List Char} (hab : a ≠ b)
    (h : (a :: as).isPrefixOf l = true) : (b :: bs).isPrefixOf l = false := by
  cases l with
  | nil => simp [List.isPrefixOf] at h
  | cons c cs =>
    simp only [List.isPrefixOf, Bool.and_eq_true, beq_iff_eq] at h
    have hbc : (b == c) = false := by
      rw [beq_eq_false_iff_ne]
      intro hbc
      exact hab (h.1.trans hbc.symm)
    simp [List.isPrefixOf, hbc]

/-- A MIME type starting with `video/` does not start with `image/`. -/
lemma not_image_of_video (s : String) (h : strStartsWith s "video/" = true) :
    strStartsWith s "image/" = false := by
  have hv : "video/".data = 'v' :: "ideo/".data := rfl
  have hi : "image/".data = 'i' :: "mage/".data := rfl
  unfold strStartsWith at h ⊢
  rw [hv] at h
  rw [hi]
  exact isPrefixOf_head_ne (by decide) h

/-- C3: in a successful single-file submission, the record written for a
staged video file has `type = "video"`, a non-null `thumbnail` equal to the
thumbnail's resolved public URL, and `src` equal to the generated storage
path rather than a public URL. -/
theorem video_record_shape (env : Env) (files : List FileWithTitle)
    (t : String) (k : Nat) (f : FileWithTitle)
    (hk : files[k]? = some f)
    (hvid : strStartsWith f.file.type "video/" = true)
    (hsucc : (handleSubmit env files false t).2 = none) :
    ∃ r, (writtenRecords (handleSubmit env files false t).1)[k]? = some r ∧
      r.type = "video" ∧
      r.src = genKey env k f ∧
      r.thumbnail = some (env.publicUrl ("thumbnail_" ++ genKey env k f)) := by
  have himg : isImageFile f = false := not_image_of_video f.file.type hvid
  have h0 : files.isEmpty = false := by
    cases files with
    | nil => simp at hk
    | cons a l => rfl
  have heq : handleSubmit env files false t = singleUploadLoop env files 0 := by
    simp [handleSubmit, h0]
  rw [heq] at hsucc ⊢
  rw [singleUploadLoop_success env files 0 hsucc, recordsFor_getElem env files 0 k, hk]
  refine ⟨recordFor env (0 + k) f, rfl, ?_⟩
  rw [show 0 + k = k from by omega]
  simp [recordFor, himg]

def demoSingleFiles : List FileWithTitle :=
  [⟨⟨"pic.jpg", 100, "image/jpeg"⟩, "pic", "f1"⟩,
   ⟨⟨"clip.mp4", 300, "video/mp4"⟩, "clip", "f2"⟩]

theorem video_record_shape_witness :
    demoSingleFiles[1]? = some ⟨⟨"clip.mp4", 300, "video/mp4"⟩, "clip", "f2"⟩ ∧
    strStartsWith "video/mp4" "video/" = true ∧
    (handleSubmit demoEnv demoSingleFiles false "").2 = none ∧
    ∃ r, (writtenRecords (handleSubmit demoEnv demoSingleFiles false "").1)[1]? = some r ∧
      r.type = "video" ∧
      r.src = genKey demoEnv 1 ⟨⟨"clip.mp4", 300, "video/mp4"⟩, "clip", "f2"⟩ ∧
      r.thumbnail = some (demoEnv.publicUrl
        ("thumbnail_" ++ genKey demoEnv 1 ⟨⟨"clip.mp4", 300, "video/mp4"⟩, "clip", "f2"⟩)) :=
  ⟨by decide, by decide, by decide,
    video_record_shape demoEnv demoSingleFiles "" 1
      ⟨⟨"clip.mp4", 300, "video/mp4"⟩, "clip", "f2"⟩ (by decide) (by decide) (by decide)⟩

/-- All backend calls for the file at loop position `i` succeed. -/
def fileOk (env : Env) (i : Nat) (f : FileWithTitle) : Bool :=
  (env.perFile i).uploadOk &&
    (if isImageFile f then (env.perFile i).insertOk
     else (env.perFile i).thumbGenOk && (env.perFile i).thumbUploadOk &&
       (env.perFile i).insertOk)

/-- A failing head file stops the batch: the remaining files contribute
nothing, the error is the generic one, and no record is written. -/
lemma singleLoop_fail_cons (env : Env) (f : FileWithTitle)
    (rest : List FileWithTitle) (i : Nat) (hf : fileOk env i f = false) :
    singleUploadLoop env (f :: rest) i = singleUploadLoop env [f] i ∧
    (singleUploadLoop env (f :: rest) i).2 = some genericUploadError ∧
    writtenRecords (singleUploadLoop env (f :: rest) i).1 = [] := by
  cases hu : (env.perFile i).uploadOk <;>
  cases himg : isImageFile f <;>
  cases htg : (env.perFile i).thumbGenOk <;>
  cases htu : (env.perFile i).thumbUploadOk <;>
  cases hins : (env.perFile i).insertOk <;>
    simp_all [singleUploadLoop, fileOk, writtenRecords]

/-- Every operation of a single-file batch is an object upload or a record
insert — the flow never removes an object or deletes a record. -/
lemma singleLoop_ops_shape (env : Env) (files : List FileWithTitle) :
    ∀ i, ∀ op ∈ (singleUploadLoop env files i).1,
      (∃ k, op = NetOp.upload k) ∨ ∃ r b, op = NetOp.insertRecord r b := by
  induction files with
  | nil =>
    intro i op hop
    simp [singleUploadLoop] at hop
  | cons f rest ih =>
    intro i op hop
    simp only [singleUploadLoop] at hop
    by_cases hu : (env.perFile i).uploadOk
    · simp only [if_pos hu] at hop
      by_cases himg : isImageFile f
      · simp only [if_pos himg] at hop
        by_cases hins : (env.perFile i).insertOk
        · simp only [if_pos hins, List.mem_cons] at hop
          rcases hop with h | h | h
          · exact Or.inl ⟨_, h⟩
          · exact Or.inr ⟨_, _, h⟩
          · exact ih (i + 1) op h
        · simp only [if_neg hins, List.mem_cons] at hop
          rcases hop with h | h | h
          · exact Or.inl ⟨_, h⟩
          · exact Or.inr ⟨_, _, h⟩
          · simp at h
      · simp only [if_neg himg] at hop
        by_cases htg : (env.perFile i).thumbGenOk
        · simp only [if_pos htg] at hop
          by_cases htu : (env.perFile i).thumbUploadOk
          · simp only [if_pos htu] at hop
            by_cases hins : (env.perFile i).insertOk
            · simp only [if_pos hins, List.mem_cons] at hop
              rcases hop with h | h | h | h
              · exact Or.inl ⟨_, h⟩
              · exact Or.inl ⟨_, h⟩
              · exact Or.inr ⟨_, _, h⟩
              · exact ih (i + 1) op h
            · simp only [if_neg hins, List.mem_cons] at hop
              rcases hop with h | h | h | h
              · exact Or.inl ⟨_, h⟩
              · exact Or.inl ⟨_, h⟩
              · exact Or.inr ⟨_, _, h⟩
              · simp at h
          · simp only [if_neg htu, List.mem_cons] at hop
            rcases hop with h | h | h
            · exact Or.inl ⟨_, h⟩
            · exact Or.inl ⟨_, h⟩
            · simp at h
        · simp only [if_neg htg, List.mem_cons] at hop
          rcases hop with h | h
          · exact Or.inl ⟨_, h⟩
          · simp at h
    · simp only [if_neg hu, List.mem_cons] at hop
      rcases hop with h | h
      · exact Or.inl ⟨_, h⟩
      · simp at h

/-- A batch whose k-th file is the first to fail surfaces the generic
error, behaves exactly like the batch truncated after the k-th file, and
writes exactly the records of the first k files. -/
lemma singleLoop_abort (env : Env) :
    ∀ (k : Nat) (files : List FileWithTitle) (i : Nat) (fk : FileWithTitle),
      files[k]? = some fk →
      fileOk env (i + k) fk = false →
      (∀ j, j < k → ∀ g, files[j]? = some g → fileOk env (i + j) g = true) →
      (singleUploadLoop env files i).2 = some genericUploadError ∧
      singleUploadLoop env files i = singleUploadLoop env (files.take (k + 1)) i ∧
      writtenRecords (singleUploadLoop env files i).1 =
        recordsFor env (files.take k) i := by
  intro k
  induction k with
  | zero =>
    intro files i fk hk hfail hpre
    cases files with
    | nil => simp at hk
    | cons f rest =>
      simp only [List.getElem?_cons_zero, Option.some.injEq] at hk
      subst hk
      obtain ⟨heq, herr, hw⟩ :=
        singleLoop_fail_cons env f rest i (by simpa using hfail)
      refine ⟨herr, ?_, ?_⟩
      · simpa using heq
      · simpa [recordsFor] using hw
  | succ k ih =>
    intro files i fk hk hfail hpre
    cases files with
    | nil => simp at hk
    | cons f rest =>
      have hf0 : fileOk env i f = true := by
        simpa using hpre 0 (by omega) f (by simp)
      have hkr : rest[k]? = some fk := by simpa using hk
      have hfailr : fileOk env ((i + 1) + k) fk = false := by
        rw [show (i + 1) + k = i + (k + 1) from by omega]
        exact hfail
      have hprer : ∀ j, j < k → ∀ g, rest[j]? = some g →
          fileOk env ((i + 1) + j) g = true := by
        intro j hj g hg
        rw [show (i + 1) + j = i + (j + 1) from by omega]
        exact hpre (j + 1) (by omega) g (by simpa using hg)
      obtain ⟨herr, heq, hw⟩ := ih rest (i + 1) fk hkr hfailr hprer
      unfold fileOk at hf0
      simp only [Bool.and_eq_true] at hf0
      obtain ⟨hu, hrest⟩ := hf0
      by_cases himg : isImageFile f
      · rw [if_pos himg] at hrest
        refine ⟨?_, ?_, ?_⟩
        · simp only [singleUploadLoop, if_pos hu, if_pos himg, if_pos hrest]
          exact herr
        · simp only [List.take_succ_cons, singleUploadLoop, if_pos hu,
            if_pos himg, if_pos hrest]
          rw [heq]
        · simp only [List.take_succ_cons, singleUploadLoop, if_pos hu,
            if_pos himg, if_pos hrest, recordsFor]
          rw [writtenRecords_upload, writtenRecords_insert_true, hw]
          simp [recordFor, himg]
      · rw [if_neg himg] at hrest
        simp only [Bool.and_eq_true] at hrest
        obtain ⟨⟨htg, htu⟩, hins⟩ := hrest
        refine ⟨?_, ?_, ?_⟩
        · simp only [singleUploadLoop, if_pos hu, if_neg himg, if_pos htg,
            if_pos htu, if_pos hins]
          exact herr
        · simp only [List.take_succ_cons, singleUploadLoop, if_pos hu,
            if_neg himg, if_pos htg, if_pos htu, if_pos hins]
          rw [heq]
        · simp only [List.take_succ_cons, singleUploadLoop, if_pos hu,
            if_neg himg, if_pos htg, if_pos htu, if_pos hins, recordsFor]
          rw [writtenRecords_upload, writtenRecords_upload,
            writtenRecords_insert_true, hw]
          simp [recordFor, himg]

/-- C7: if the k-th file of a single-file batch is the first whose upload,
thumbnail step or record write fails, the submission surfaces the generic
error, the whole run coincides with the run on the batch truncated after
the k-th file (so nothing is attempted for any later file), exactly the
records of the first k files are written, and the trace contains only
uploads and record inserts (no compensating deletion of what was already
written). -/
theorem single_batch_abort (env : Env) (files : List FileWithTitle)
    (t : String) (k : Nat) (fk : FileWithTitle)
    (hk : files[k]? = some fk)
    (hfail : fileOk env k fk = false)
    (hpre : ∀ j, j < k → ∀ g, files[j]? = some g → fileOk env j g = true) :
    (handleSubmit env files false t).2 = some genericUploadError ∧
    handleSubmit env files false t = handleSubmit env (files.take (k + 1)) false t ∧
    writtenRecords (handleSubmit env files false t).1 =
      recordsFor env (files.take k) 0 ∧
    ∀ op ∈ (handleSubmit env files false t).1,
      (∃ key, op = NetOp.upload key) ∨ ∃ r b, op = NetOp.insertRecord r b := by
  have h0 : files.isEmpty = false := by
    cases files with
    | nil => simp at hk
    | cons a l => rfl
  have h0t : (files.take (k + 1)).isEmpty = false := by
    cases files with
    | nil => simp at hk
    | cons a l => rfl
  have heq : handleSubmit env files false t = singleUploadLoop env files 0 := by
    simp [handleSubmit, h0]
  have heqt : handleSubmit env (files.take (k + 1)) false t =
      singleUploadLoop env (files.take (k + 1)) 0 := by
    simp [handleSubmit, h0t]
  obtain ⟨herr, habort, hw⟩ :=
    singleLoop_abort env k files 0 fk hk (by simpa using hfail)
      (by intro j hj g hg; simpa using hpre j hj g hg)
  rw [heq, heqt]
  exact ⟨herr, habort, hw, singleLoop_ops_shape env files 0⟩

/-- Environment in which the second upload of a batch fails. -/
def demoFailEnv : Env :=
  { perFile := fun i =>
      { uuid := "uuid" ++ toString i, path := "path" ++ toString i,
        uploadOk := i != 1, thumbGenOk := true, thumbUploadOk := true,
        insertOk := true },
    publicUrl := fun p => "https://backend.example/storage/" ++ p,
    albumInsertOk := true,
    now := "2026-01-01T00:00:00.000Z" }

def demoFiles3 : List FileWithTitle :=
  [⟨⟨"one.jpg", 100, "image/jpeg"⟩, "one", "f1"⟩,
   ⟨⟨"two.png", 200, "image/png"⟩, "two", "f2"⟩,
   ⟨⟨"three.png", 300, "image/png"⟩, "three", "f3"⟩]

theorem single_batch_abort_witness :
    demoFiles3[1]? = some ⟨⟨"two.png", 200, "image/png"⟩, "two", "f2"⟩ ∧
    fileOk demoFailEnv 1 ⟨⟨"two.png", 200, "image/png"⟩, "two", "f2"⟩ = false ∧
    ((handleSubmit demoFailEnv demoFiles3 false "").2 = some genericUploadError ∧
      handleSubmit demoFailEnv demoFiles3 false "" =
        handleSubmit demoFailEnv (demoFiles3.take 2) false "" ∧
      writtenRecords (handleSubmit demoFailEnv demoFiles3 false "").1 =
        recordsFor demoFailEnv (demoFiles3.take 1) 0 ∧
      ∀ op ∈ (handleSubmit demoFailEnv demoFiles3 false "").1,
        (∃ key, op = NetOp.upload key) ∨ ∃ r b, op = NetOp.insertRecord r b) :=
  ⟨by decide, by decide,
    single_batch_abort demoFailEnv demoFiles3 "" 1
      ⟨⟨"two.png", 200, "image/png"⟩, "two", "f2"⟩ (by decide) (by decide)
      (by
        intro j hj g hg
        have hj0 : j = 0 := by omega
        subst hj0
        have hg2 : some (⟨⟨"one.jpg", 100, "image/jpeg"⟩, "one", "f1"⟩ : FileWithTitle) =
            some g := hg
        injection hg2 with hgg
        subst hgg
        decide)⟩

instance : IsTotal YearGroup (fun a b => b.year ≤ a.year) :=
  ⟨fun a b => le_total b.year a.year⟩

instance : IsTrans YearGroup (fun a b => b.year ≤ a.year) :=
  ⟨fun _ _ _ h1 h2 => le_trans h2 h1⟩

instance : IsTotal MonthGroup (fun a b => b.month ≤ a.month) :=
  ⟨fun a b => le_total b.month a.month⟩

instance : IsTrans MonthGroup (fun a b => b.month ≤ a.month) :=
  ⟨fun _ _ _ h1 h2 => le_trans h2 h1⟩

/-- `x` sits in the month bucket of its calendar month. -/
def memInMonths (months : List MonthGroup) (x : TMemory) : Prop :=
  ∃ mg ∈ months, mg.month = x.dateMonth ∧ x ∈ mg.memories

/-- `x` sits in the year bucket of its calendar year and, inside it, in the
month bucket of its calendar month. -/
def memInGroups (gs : List YearGroup) (x : TMemory) : Prop :=
  ∃ yg ∈ gs, yg.year = x.dateYear ∧ memInMonths yg.months x

lemma insertMonth_mem_self (months : List MonthGroup) (m : TMemory) :
    memInMonths (insertMonth months m) m := by
  induction months with
  | nil => exact ⟨⟨m.dateMonth, [m]⟩, by simp [insertMonth], rfl, by simp⟩
  | cons g rest ih =>
    by_cases hg : g.month = m.dateMonth
    · exact ⟨⟨g.month, g.memories ++ [m]⟩, by simp [insertMonth, hg], hg, by simp⟩
    · obtain ⟨mg, hmg, h1, h2⟩ := ih
      exact ⟨mg, by simp [insertMonth, hg, hmg], h1, h2⟩

lemma insertMonth_mem_mono (months : List MonthGroup) (m x : TMemory)
    (h : memInMonths months x) : memInMonths (insertMonth months m) x := by
  induction months with
  | nil =>
    obtain ⟨mg, hmg, _, _⟩ := h
    simp at hmg
  | cons g rest ih =>
    obtain ⟨mg, hmg, h1, h2⟩ := h
    by_cases hg : g.month = m.dateMonth
    · rcases List.mem_cons.mp hmg with rfl | hmem
      · exact ⟨⟨mg.month, mg.memories ++ [m]⟩, by simp [insertMonth, hg], h1,
          by simp [h2]⟩
      · exact ⟨mg, by simp [insertMonth, hg, hmem], h1, h2⟩
    · rcases List.mem_cons.mp hmg with rfl | hmem
      · exact ⟨mg, by simp [insertMonth, hg], h1, h2⟩
      · obtain ⟨mg2, hmg2, h12, h22⟩ := ih ⟨mg, hmem, h1, h2⟩
        exact ⟨mg2, by simp [insertMonth, hg, hmg2], h12, h22⟩

lemma insertYear_mem_self (gs : List YearGroup) (m : TMemory) :
    memInGroups (insertYear gs m) m := by
  induction gs with
  | nil =>
    exact ⟨⟨m.dateYear, [⟨m.dateMonth, [m]⟩]⟩, by simp [insertYear], rfl,
      ⟨m.dateMonth, [m]⟩, by simp, rfl, by simp⟩
  | cons g rest ih =>
    by_cases hg : g.year = m.dateYear
    · exact ⟨⟨g.year, insertMonth g.months m⟩, by simp [insertYear, hg], hg,
        insertMonth_mem_self g.months m⟩
    · obtain ⟨yg, hyg, h1, h2⟩ := ih
      exact ⟨yg, by simp [insertYear, hg, hyg], h1, h2⟩

lemma insertYear_mem_mono (gs : List YearGroup) (m x : TMemory)
    (h : memInGroups gs x) : memInGroups (insertYear gs m) x := by
  induction gs with
  | nil =>
    obtain ⟨yg, hyg, _, _⟩ := h
    simp at hyg
  | cons g rest ih =>
    obtain ⟨yg, hyg, h1, h2⟩ := h
    by_cases hg : g.year = m.dateYear
    · rcases List.mem_cons.mp hyg with rfl | hmem
      · exact ⟨⟨yg.year, insertMonth yg.months m⟩, by simp [insertYear, hg], h1,
          insertMonth_mem_mono yg.months m x h2⟩
      · exact ⟨yg, by simp [insertYear, hg, hmem], h1, h2⟩
    · rcases List.mem_cons.mp hyg with rfl | hmem
      · exact ⟨yg, by simp [insertYear, hg], h1, h2⟩
      · obtain ⟨yg2, hyg2, h12, h22⟩ := ih ⟨yg, hmem, h1, h2⟩
        exact ⟨yg2, by simp [insertYear, hg, hyg2], h12, h22⟩

lemma foldl_insertYear_mem (ms : List TMemory) :
    ∀ (gs : List YearGroup) (x : TMemory),
      x ∈ ms ∨ memInGroups gs x → memInGroups (ms.foldl insertYear gs) x := by
  induction ms with
  | nil =>
    intro gs x h
    rcases h with h | h
    · simp at h
    · simpa using h
  | cons m rest ih =>
    intro gs x h
    rw [List.foldl_cons]
    rcases h with h | h
    · rcases List.mem_cons.mp h with rfl | hmem
      · exact ih (insertYear gs x) x (Or.inr (insertYear_mem_self gs x))
      · exact ih (insertYear gs m) x (Or.inl hmem)
    · exact ih (insertYear gs m) x (Or.inr (insertYear_mem_mono gs m x h))

lemma monthsOf_insertMonth (months : List MonthGroup) (m : TMemory) :
    (insertMonth months m).map MonthGroup.month =
      if m.dateMonth ∈ months.map MonthGroup.month then months.map MonthGroup.month
      else months.map MonthGroup.month ++ [m.dateMonth] := by
  induction months with
  | nil => simp [insertMonth]
  | cons g rest ih =>
    by_cases hg : g.month = m.dateMonth
    · simp [insertMonth, hg]
    · by_cases hmem : m.dateMonth ∈ rest.map MonthGroup.month
      · simp [insertMonth, hg, hmem, ih, Ne.symm hg]
      · simp [insertMonth, hg, hmem, ih, Ne.symm hg]

lemma yearsOf_insertYear (gs : List YearGroup) (m : TMemory) :
    (insertYear gs m).map YearGroup.year =
      if m.dateYear ∈ gs.map YearGroup.year then gs.map YearGroup.year
      else gs.map YearGroup.year ++ [m.dateYear] := by
  induction gs with
  | nil => simp [insertYear]
  | cons g rest ih =>
    by_cases hg : g.year = m.dateYear
    · simp [insertYear, hg]
    · by_cases hmem : m.dateYear ∈ rest.map YearGroup.year
      · simp [insertYear, hg, hmem, ih, Ne.symm hg]
      · simp [insertYear, hg, hmem, ih, Ne.symm hg]

lemma monthsOf_nodup (months : List MonthGroup) (m : TMemory)
    (h : (months.map MonthGroup.month).Nodup) :
    ((insertMonth months m).map MonthGroup.month).Nodup := by
  rw [monthsOf_insertMonth]
  by_cases hmem : m.dateMonth ∈ months.map MonthGroup.month
  · simpa [hmem] using h
  · simp [hmem, h, List.nodup_append]

lemma yearsOf_nodup (gs : List YearGroup) (m : TMemory)
    (h : (gs.map YearGroup.year).Nodup) :
    ((insertYear gs m).map YearGroup.year).Nodup := by
  rw [yearsOf_insertYear]
  by_cases hmem : m.dateYear ∈ gs.map YearGroup.year
  · simpa [hmem] using h
  · simp [hmem, h, List.nodup_append]

lemma insertYear_months_nodup (gs : List YearGroup) (m : TMemory)
    (h : ∀ g ∈ gs, (g.months.map MonthGroup.month).Nodup) :
    ∀ g ∈ insertYear gs m, (g.months.map MonthGroup.month).Nodup := by
  induction gs with
  | nil =>
    intro g hg
    simp [insertYear] at hg
    subst hg
    simp
  | cons g0 rest ih =>
    intro g hg
    by_cases hg0 : g0.year = m.dateYear
    · simp only [insertYear, if_pos hg0, List.mem_cons] at hg
      rcases hg with rfl | hmem
      · exact monthsOf_nodup g0.months m (h g0 (by simp))
      · exact h g (by simp [hmem])
    · simp only [insertYear, if_neg hg0, List.mem_cons] at hg
      rcases hg with rfl | hmem
      · exact h g (by simp)
      · exact ih (fun g2 hg2 => h g2 (by simp [hg2])) g hmem

/-- Well-formedness of the accumulated groups: year keys are distinct and
each group's month keys are distinct. -/
def groupsWF (gs : List YearGroup) : Prop :=
  (gs.map YearGroup.year).Nodup ∧ ∀ g ∈ gs, (g.months.map MonthGroup.month).Nodup

lemma foldl_insertYear_wf (ms : List TMemory) :
    ∀ gs : List YearGroup, groupsWF gs → groupsWF (ms.foldl insertYear gs) := by
  induction ms with
  | nil => intro gs h; simpa using h
  | cons m rest ih =>
    intro gs h
    rw [List.foldl_cons]
    exact ih (insertYear gs m)
      ⟨yearsOf_nodup gs m h.1, insertYear_months_nodup gs m h.2⟩

/-- The records of the spec's worked example, dated 2024-03-05, 2024-01-20
and 2023-12-01 (calendar months 0-based, as returned by `Date.getMonth`, so
March is 2, January is 0, December is 11). -/
def sampleMemories : List TMemory :=
  [⟨1, "photo", "a", 2024, 2⟩, ⟨2, "photo", "b", 2024, 0⟩,
   ⟨3, "photo", "c", 2023, 11⟩]

/-- C5: every record lands in the bucket of its calendar year and month,
year groups are strictly descending by year, month groups are strictly
descending by month inside each year, and the worked example of records
dated 2024-03-05, 2024-01-20, 2023-12-01 yields years [2024, 2023] with
2024 holding months [March, January]. -/
theorem timeline_grouping (ms : List TMemory) :
    (∀ x ∈ ms, memInGroups (timelineGroups ms) x) ∧
    (timelineGroups ms).Pairwise (fun a b => b.year < a.year) ∧
    (∀ g ∈ timelineGroups ms, g.months.Pairwise (fun a b => b.month < a.month)) ∧
    (timelineGroups sampleMemories).map YearGroup.year = [2024, 2023] ∧
    (timelineGroups sampleMemories).map (fun g => g.months.map MonthGroup.month) =
      [[2, 0], [11]] := by
  have hwf : groupsWF (ms.foldl insertYear []) :=
    foldl_insertYear_wf ms [] ⟨by simp, by simp⟩
  set groups := ms.foldl insertYear [] with hgroups
  set sorted := List.insertionSort (fun a b : YearGroup => b.year ≤ a.year) groups
    with hsortedDef
  have hout : timelineGroups ms =
      sorted.map fun g =>
        ⟨g.year, List.insertionSort (fun a b : MonthGroup => b.month ≤ a.month)
          g.months⟩ := rfl
  have hperm : List.Perm sorted groups := List.perm_insertionSort _ groups
  refine ⟨?_, ?_, ?_, by decide, by decide⟩
  · intro x hx
    obtain ⟨yg, hyg, hyr, mg, hmg, hmo, hxm⟩ :=
      foldl_insertYear_mem ms [] x (Or.inl hx)
    rw [hout]
    exact ⟨⟨yg.year, List.insertionSort _ yg.months⟩,
      List.mem_map_of_mem _ (hperm.mem_iff.mpr hyg), hyr,
      mg, (List.perm_insertionSort _ yg.months).mem_iff.mpr hmg, hmo, hxm⟩
  · have hsort : sorted.Pairwise (fun a b : YearGroup => b.year ≤ a.year) :=
      List.sorted_insertionSort _ groups
    have hge : (timelineGroups ms).Pairwise (fun a b => b.year ≤ a.year) := by
      rw [hout]
      exact hsort.map _ (fun a b h => h)
    have hnd : ((timelineGroups ms).map YearGroup.year).Nodup := by
      rw [hout]
      have h1 : ((sorted.map fun g =>
          (⟨g.year, List.insertionSort (fun a b : MonthGroup => b.month ≤ a.month)
            g.months⟩ : YearGroup)).map YearGroup.year) =
          sorted.map YearGroup.year := by
        simp [List.map_map, Function.comp]
      rw [h1]
      exact ((hperm.map YearGroup.year).nodup_iff).mpr hwf.1
    have hne : (timelineGroups ms).Pairwise (fun a b => a.year ≠ b.year) :=
      List.pairwise_map.mp hnd
    exact (hge.and hne).imp (fun h => lt_of_le_of_ne h.1 (fun e => h.2 e.symm))
  · intro g hg
    rw [hout] at hg
    obtain ⟨yg, hyg, rfl⟩ := List.mem_map.mp hg
    have hsortm : (List.insertionSort (fun a b : MonthGroup => b.month ≤ a.month)
        yg.months).Pairwise (fun a b => b.month ≤ a.month) :=
      List.sorted_insertionSort _ yg.months
    have hndm : ((List.insertionSort (fun a b : MonthGroup => b.month ≤ a.month)
        yg.months).map MonthGroup.month).Nodup :=
      ((List.perm_insertionSort _ yg.months).map MonthGroup.month).nodup_iff.mpr
        (hwf.2 yg (hperm.mem_iff.mp hyg))
    have hnem := List.pairwise_map.mp hndm
    exact (hsortm.and hnem).imp (fun h => lt_of_le_of_ne h.1 (fun e => h.2 e.symm))
